import Mathlib

set_option autoImplicit false

/-!
Shallow embedding of the pharmpy model artifact store:
`src/pharmpy/workflows/model_database/local_directory.py` and
`src/pharmpy/workflows/context/local_directory.py`.

Directories are modelled as association lists from file name to file
content; file contents (serialized models, dataframes, datainfo
documents) are abstracted to `Nat` where their structure is irrelevant.
-/

namespace Pharmpy

/-- Read file `k` from directory listing `l` (`none` = file absent). -/
def lookupA {α β : Type} [DecidableEq α] (l : List (α × β)) (k : α) : Option β :=
  match l with
  | [] => none
  | (k', v') :: rest => if k' = k then some v' else lookupA rest k

/-- Write file `k` with content `v` into directory listing `l`:
overwrites an existing entry in place, otherwise appends. -/
def setAssoc {α β : Type} [DecidableEq α] (l : List (α × β)) (k : α) (v : β) :
    List (α × β) :=
  match l with
  | [] => [(k, v)]
  | (k', v') :: rest =>
      if k' = k then (k, v) :: rest else (k', v') :: setAssoc rest k v

/-- The `Path.touch` / `mkdir(exist_ok=True)` on a set of names: add if absent. -/
def insertNew (l : List String) (k : String) : List String :=
  if k ∈ l then l else k :: l

/-!
### Content-addressed dataset area (`.datasets`)

From `LocalModelDirectoryDatabaseTransaction.store_model`,
`model_database/local_directory.py` lines 241-287.

A dataset file `.datasets/<n>.csv` and its sidecar
`.datasets/<n>.datainfo` are keyed here by the bare model name `n`
(the `.csv`/`.datainfo` suffixes are fixed by the code); the index file
`.datasets/.hash/<h>/<n>.csv` is the pair `(h, n)`. Dataframe contents
are abstracted to `Nat`. `DataInfo` equality in the source ignores the
`path` attribute (the code comments "Paths are not compared here"), so
`DInfo` carries the compared part (`core`) separately from `path`. -/

structure DInfo where
  core : Nat
  path : String
deriving DecidableEq

structure DSArea where
  index : List (Nat × String)
  csv : List (String × Nat)
  dinfo : List (String × DInfo)
deriving DecidableEq

inductive DSErr
  | fileNotFound
deriving DecidableEq

/-- The `h_dir.iterdir()`: the names listed under `.datasets/.hash/<h>/`. -/
def hDir (a : DSArea) (h : Nat) : List String :=
  (a.index.filter fun e => e.1 == h).map Prod.snd

/-- The `index_path.touch()`: create index file `.hash/<h>/<n>` if absent. -/
def touchIndex (idx : List (Nat × String)) (h : Nat) (n : String) :
    List (Nat × String) :=
  if (h, n) ∈ idx then idx else idx ++ [(h, n)]

/-- The `for hpath in h_dir.iterdir():` loop of `store_model` (lines
252-266): scan one hash bucket for a stored dataset whose datainfo
equals the model's (ignoring paths) and whose dataframe equals `df`.
Returns the matched entry's datainfo path. `DataInfo.read_json` or
`read_dataset_from_datainfo` on a missing file raises
(`FileNotFoundError` is not caught, see the TODO at line 257). -/
def scanHDir (a : DSArea) (c : Nat) (df : Nat) :
    List String → Except DSErr (Option String)
  | [] => .ok none
  | n :: rest =>
    match lookupA a.dinfo n with
    | none => .error .fileNotFound
    | some curdi =>
      if curdi.core = c then
        match lookupA a.csv curdi.path with
        | none => .error .fileNotFound
        | some f =>
          if f = df then .ok (some curdi.path) else scanHDir a c df rest
      else scanHDir a c df rest

/-- The dataset-handling part of `store_model` (lines 247-281): hash the
dataframe with `hash_df_fs` (abstracted as `hashDf`), scan the bucket;
on a hit reuse the stored dataset (the model's datainfo path is
rewritten to the match, nothing is copied); on a miss create the index
file, write the csv and then the datainfo. Returns the updated area and
the path now recorded in the model's datainfo. -/
def storeDataset (hashDf : Nat → Nat) (a : DSArea) (name : String) (di : DInfo)
    (df : Nat) : Except DSErr (DSArea × String) :=
  match scanHDir a di.core df (hDir a (hashDf df)) with
  | .error e => .error e
  | .ok (some p) => .ok (a, p)
  | .ok none =>
      .ok ({ index := touchIndex a.index (hashDf df) name,
             csv := setAssoc a.csv name df,
             dinfo := setAssoc a.dinfo name ⟨di.core, name⟩ }, name)

/-- The stored content an index entry for name `n` points at: the
datainfo core and the dataframe. -/
def entryContent (a : DSArea) (n : String) : Option (Nat × Nat) :=
  match lookupA a.dinfo n, lookupA a.csv n with
  | some d, some f => some (d.core, f)
  | _, _ => none

/-- Well-formedness of the dataset area as maintained by the code: every
index entry has its datainfo (pointing at itself) and its csv with the
indexed hash; every csv has its index entry; file names are unique. -/
def DSWF (hashDf : Nat → Nat) (a : DSArea) : Prop :=
  (∀ e ∈ a.index, ∃ d, lookupA a.dinfo e.2 = some d ∧ d.path = e.2 ∧
      ∃ f, lookupA a.csv e.2 = some f ∧ hashDf f = e.1)
    ∧ (∀ c ∈ a.csv, (hashDf c.2, c.1) ∈ a.index)
    ∧ (a.csv.map Prod.fst).Nodup

/-- The deduplication invariant: no two live index entries point at
equal content. -/
def NoDupContent (a : DSArea) : Prop :=
  ∀ e₁ ∈ a.index, ∀ e₂ ∈ a.index,
    entryContent a e₁.2 = entryContent a e₂.2 → e₁.2 = e₂.2

/-!
### The model record store (`LocalModelDirectoryDatabase`)

`model_database/local_directory.py` lines 149-224. Only what the
transaction/snapshot protocol touches is modelled: which record
directories, metadata directories and `PENDING` marker files exist,
plus the content areas needed by the context layer. -/

structure MDB where
  /-- keys whose `<db.path>/<key>/.pharmpy/PENDING` marker exists -/
  pending : List String
  /-- keys whose `<db.path>/<key>/.pharmpy` metadata directory exists -/
  metaDirs : List String
  /-- keys whose record directory `<db.path>/<key>` exists -/
  records : List String
  /-- the `.datasets` area -/
  datasets : DSArea
  /-- serialized model file contents per key -/
  modelBytes : List (String × Nat)
deriving DecidableEq

inductive DBErr
  | pendingTransaction
deriving DecidableEq

/-- The `destination.mkdir(parents=True, exist_ok=True)` for
`<key>/.pharmpy` (run by both `snapshot` and `transaction` before
taking the lock; creates the record directory too). -/
def mkMetaDir (db : MDB) (k : String) : MDB :=
  { db with records := insertNew db.records k,
            metaDirs := insertNew db.metaDirs k }

/-- Opening `LocalModelDirectoryDatabase.snapshot` (lines 182-194): make
the metadata directory, then under the shared database-wide lock fail
with `PendingTransactionError` when the `PENDING` marker exists. -/
def snapshotOpen (db : MDB) (k : String) : MDB × Except DBErr Unit :=
  let db1 := mkMetaDir db k
  (db1, if k ∈ db1.pending then .error .pendingTransaction else .ok ())

/-- The opening part of `LocalModelDirectoryDatabase.transaction` (lines
196-214): make the metadata directory, then under the exclusive
database-wide lock `path.touch(exist_ok=False)` the `PENDING` marker;
`FileExistsError` becomes `PendingTransactionError`. -/
def openTransaction (db : MDB) (k : String) : MDB × Except DBErr Unit :=
  let db1 := mkMetaDir db k
  if k ∈ db1.pending then (db1, .error .pendingTransaction)
  else ({ db1 with pending := k :: db1.pending }, .ok ())

/-- Commit (line 217): `path.unlink()` removes the `PENDING` marker;
runs only when the body raised no exception. -/
def commitTransaction (db : MDB) (k : String) : MDB :=
  { db with pending := db.pending.erase k }

inductive TxOutcome
  | committed
  | bodyError
  | pendingError
deriving DecidableEq

/-- The whole `with db.transaction(model):` scope. `bodyFails` abstracts
whether the body raises (the body's store operations never touch the
`PENDING` marker). On a body exception the marker is left in place;
the commit `path.unlink()` runs only on clean exit. -/
def transactionScope (db : MDB) (k : String) (bodyFails : Bool) : MDB × TxOutcome :=
  match openTransaction db k with
  | (db1, .error _) => (db1, .pendingError)
  | (db1, .ok ()) =>
      if bodyFails then (db1, .bodyError)
      else (commitTransaction db1 k, .committed)

/-!
### Snapshot read operations (`LocalModelDirectoryDatabaseSnapshot`)

`model_database/local_directory.py` lines 320-389. The record directory
`<db.path>/<name>` holds plain files (`recFiles`, name to content; the
content value also stands for `st_size`, so `0` is an empty file) and
subdirectories with their files (`recDirs`); `dest`/`destDirs` model
the caller-supplied `destination_path` outside the record. -/

structure SnapFS where
  recFiles : List (String × Nat)
  recDirs : List (String × List (String × Nat))
  dest : List (String × Nat)
  destDirs : List (String × List (String × Nat))
deriving DecidableEq

inductive SnapErr
  | fileNotFound
  | keyError
  | fileExistsError
deriving DecidableEq

/-- The `retrieve_local_files` (lines 325-332): `shutil.copy2` every plain
file (silently overwriting an existing destination file) and
`shutil.copytree` every subdirectory of the record into the destination.
`copytree` (with `dirs_exist_ok` at its default `False`) raises
`FileExistsError` when the destination subdirectory already exists;
the loop runs in arbitrary `glob` order, so on that error the
destination contents are order-dependent and only the exception is
modelled — the record is untouched either way. -/
def snapRetrieveLocalFiles (s : SnapFS) : Except SnapErr SnapFS :=
  if s.recDirs.any fun e => (lookupA s.destDirs e.1).isSome
  then .error .fileExistsError
  else .ok { s with
    dest := s.recFiles.foldl (fun d e => setAssoc d e.1 e.2) s.dest,
    destDirs := s.recDirs.foldl (fun d e => setAssoc d e.1 e.2) s.destDirs }

/-- The `retrieve_file` (lines 334-340): return the path when the file
exists with nonzero size, else raise `FileNotFoundError`. -/
def snapRetrieveFile (s : SnapFS) (filename : String) : Except SnapErr String :=
  match lookupA s.recFiles filename with
  | some c => if 0 < c then .ok filename else .error .fileNotFound
  | none => .error .fileNotFound

/-- The `_find_full_model_path` (lines 352-369): try `<name>.mod` then
`<name>.ctl`; `KeyError` when neither is a file. -/
def findFullModelPath (s : SnapFS) (name : String) : Except SnapErr String :=
  match lookupA s.recFiles (name ++ ".mod") with
  | some _ => .ok (name ++ ".mod")
  | none =>
    match lookupA s.recFiles (name ++ ".ctl") with
    | some _ => .ok (name ++ ".ctl")
    | none => .error .keyError

/-- The `retrieve_model` (lines 342-350): parse the model file found by
`_find_full_model_path`; `parseModel` abstracts `Model.parse_model`. -/
def snapRetrieveModel (parseModel : Nat → Nat) (s : SnapFS) (name : String) :
    Except SnapErr Nat :=
  match findFullModelPath s name with
  | .error e => .error e
  | .ok p =>
    match lookupA s.recFiles p with
    | some bytes => .ok (parseModel bytes)
    | none => .error .fileNotFound

/-- The `retrieve_modelfit_results` (lines 371-383): parse results from the
model and its file (`get_modelfit_results`, abstracted by `parseRes` on
the parsed model); when that yields `None`, fall back to `read_results`
(abstracted by `readRes`) on `.pharmpy/results.json`. -/
def snapRetrieveModelfitResults (parseModel : Nat → Nat) (parseRes : Nat → Option Nat)
    (readRes : Nat → Nat) (s : SnapFS) (name : String) : Except SnapErr Nat :=
  match snapRetrieveModel parseModel s name with
  | .error e => .error e
  | .ok m =>
    match parseRes m with
    | some r => .ok r
    | none =>
      match lookupA s.recDirs ".pharmpy" with
      | none => .error .fileNotFound
      | some meta =>
        match lookupA meta "results.json" with
        | none => .error .fileNotFound
        | some bytes => .ok (readRes bytes)

/-!
### `LocalModelDirectoryDatabaseTransaction.store_local_file`

`model_database/local_directory.py` lines 289-295. Absolute paths are
lists of components; `allFiles` is the whole filesystem as one listing
from absolute path to file content. -/

abbrev FPath := List String

/-- Is `p` inside the database's own managed directory tree? -/
def insideStore (dbPath p : FPath) : Bool :=
  dbPath.isPrefixOf p

inductive TxErr
  | sameFileError
deriving DecidableEq

/-- The `store_local_file(self, path, new_filename=None)`: when `path` is an
existing regular file, `shutil.copy2` it (contents verbatim) into the
record directory `<db.path>/<model name>`, under `new_filename` when
given, else under its own basename (`copy2` into a directory).
`copy2` raises `SameFileError` when source and destination are the same
file, copying nothing. -/
def txStoreLocalFile (dbPath : FPath) (modelName : String)
    (allFiles : List (FPath × Nat)) (p : FPath) (newFilename : Option String) :
    Except TxErr (List (FPath × Nat)) :=
  match lookupA allFiles p with
  | none => .ok allFiles
  | some content =>
      let destDir := dbPath ++ [modelName]
      let destFile := match newFilename with
        | some n => destDir ++ [n]
        | none => destDir ++ [p.getLastD ""]
      if destFile = p then .error .sameFileError
      else .ok (setAssoc allFiles destFile content)

/-!
### `LocalDirectoryContext`: name links

`context/local_directory.py` lines 157-194. `models/<name>` symlinks
are a listing from name to the digest (directory name) of the record
they resolve to; the context shares the model database. -/

structure CtxState where
  /-- The `models/<name>` symlinks: name to record-directory digest -/
  links : List (String × String)
  /-- the shared model database at `<top>/.modeldb` -/
  db : MDB
deriving DecidableEq

inductive CtxErr
  | notFound
  | pendingTransaction
deriving DecidableEq

/-- The `store_key` (lines 157-166): create the `models/<name>` symlink
pointing at the record directory of `key`, only when the link does not
already exist and the record directory exists; otherwise do nothing. -/
def store_key (s : CtxState) (name key : String) : CtxState :=
  if (lookupA s.links name).isSome then s
  else if key ∈ s.db.records then { s with links := (name, key) :: s.links }
  else s

/-- The `retrieve_key` (lines 168-177): resolve the symlink (`KeyError` when
`models/<name>` resolves to itself, i.e. is no symlink), then open a
database snapshot on the digest and return the snapshot's key. -/
def retrieve_key (s : CtxState) (name : String) : CtxState × Except CtxErr String :=
  match lookupA s.links name with
  | none => (s, .error .notFound)
  | some digest =>
      match snapshotOpen s.db digest with
      | (db1, .error _) => ({ s with db := db1 }, .error .pendingTransaction)
      | (db1, .ok ()) => ({ s with db := db1 }, .ok digest)

/-- The `retrieve_name` (lines 186-194): scan `models/` and return the first
link resolving to `key`; `KeyError` when none does. `Path.iterdir()`
order is arbitrary and unsorted; the list order of `links` stands for
one such order, so only statements that are insensitive to it — e.g.
when exactly one link resolves to `key` — are program guarantees. -/
def retrieve_name (s : CtxState) (key : String) : Except CtxErr String :=
  match s.links.find? (fun e => e.2 == key) with
  | some e => .ok e.1
  | none => .error .notFound

/-!
### `LocalDirectoryContext`: log and context paths

`context/local_directory.py` lines 141-147 (`context_path`) and
224-245 (`store_message` / `retrieve_log`). The single `log.csv` at the
top of the context tree is a list of structured rows; `pd.read_csv`
parses it back into the same rows. -/

structure LogRow where
  path : String
  time : String
  severity : String
  message : String
deriving DecidableEq

/-- The `mangle_message` (lines 229-230): CSV quoting of the message. -/
def mangleMessage (m : String) : String :=
  "\"" ++ m.replace "\"" "\"\"" ++ "\""

/-- The `store_message` (lines 224-232): under the exclusive log lock,
append one row to the root `log.csv`, tagged with the caller-supplied
context path. -/
def store_message (log : List LogRow) (severity ctxpath date message : String) :
    List LogRow :=
  log ++ [⟨ctxpath, date, severity, mangleMessage message⟩]

/-- Joining path components with a slash separator, as str.join does. -/
def joinSlash : List String → String
  | [] => ""
  | [n] => n
  | n :: m :: rest => n ++ "/" ++ joinSlash (m :: rest)

/-- The relative filesystem path of a context whose chain of names from
the top context is `names`: subcontexts nest under `subcontexts/`
(`create_subcontext`, line 265-268). -/
def fsParts : List String → List String
  | [] => []
  | [n] => [n]
  | n :: m :: rest => n :: "subcontexts" :: fsParts (m :: rest)

/-- Every other component: the slice step of context_path. -/
def everyOther {α : Type} : List α → List α
  | [] => []
  | [x] => [x]
  | x :: _ :: rest => x :: everyOther rest

/-- The `context_path` (lines 141-147): the logical path: take the relative
filesystem path, drop the interleaved `subcontexts` components, join
with `/`. -/
def context_path (names : List String) : String :=
  joinSlash (everyOther (fsParts names))

/-- Slash count of a path string, as counted by retrieve_log. -/
def countSlash (s : String) : Nat := s.toList.count '/'

inductive LogLevel
  | all
  | current
  | lower
deriving DecidableEq

/-- The `retrieve_log` (lines 234-245): read the root log under the shared
log lock and filter rows by comparing the slash count of each row path
against the current context's own slash count. -/
def retrieve_log (log : List LogRow) (selfPath : String) (level : LogLevel) :
    List LogRow :=
  let curlevel := countSlash selfPath
  match level with
  | .all => log
  | .lower => log.filter fun r => decide (curlevel ≤ countSlash r.path)
  | .current => log.filter fun r => countSlash r.path == curlevel

/-!
### Locking primitive

Modelled from the spec: the implementation `path_lock`
(`pharmpy.internals.fs.lock`) is not among the sources here; the spec
prescribes advisory shared/exclusive file locks where shared locks
coexist, an exclusive lock excludes every other holder, and acquisition
blocks until compatible. `_read_lock`/`_write_lock`
(`model_database/local_directory.py` lines 170-180) call it with
`shared=True`/`shared=False` on the single database-wide `.lock`
file. -/

inductive LockMode
  | shared
  | exclusive
deriving DecidableEq

/-- Modelled from the spec: the mode requested by
`path_lock(path, shared=b)`. -/
def pathLockMode (shared : Bool) : LockMode :=
  if shared then .shared else .exclusive

/-- The `_read_lock` (lines 170-174) takes the database-wide lock with
`shared=True`. -/
def readLockMode : LockMode := pathLockMode true

/-- The `_write_lock` (lines 176-180) takes the database-wide lock with
`shared=False`. -/
def writeLockMode : LockMode := pathLockMode false

/-- Current holders of the one database-wide lock: holder id and mode. -/
abbrev LockHolders := List (Nat × LockMode)

/-- Modelled from the spec: acquisition is enabled exactly when every
current holder is compatible with the requested mode; a blocked
acquisition simply waits, so it is no enabled step. -/
def canAcquire (st : LockHolders) (m : LockMode) : Bool :=
  match m with
  | .exclusive => st.isEmpty
  | .shared => st.all fun h => h.2 == LockMode.shared

/-- Steps of the database-wide lock: acquire (only when enabled) and
release (on every exit path of the `with` block). -/
inductive LockStep : LockHolders → LockHolders → Prop
  | acquire (st : LockHolders) (i : Nat) (m : LockMode)
      (h : canAcquire st m = true) : LockStep st ((i, m) :: st)
  | release (st₁ st₂ : LockHolders) (i : Nat) (m : LockMode) :
      LockStep (st₁ ++ (i, m) :: st₂) (st₁ ++ st₂)

/-- Lock states reachable from the free lock. -/
inductive LockReach : LockHolders → Prop
  | init : LockReach []
  | step {st st' : LockHolders} : LockReach st → LockStep st st' → LockReach st'

/-- Single-writer discipline: an exclusive holder holds the lock
alone. -/
def LockSane (st : LockHolders) : Prop :=
  ∀ p ∈ st, p.2 = LockMode.exclusive → st = [p]

/-- Observable events of one database operation. -/
inductive DBEvent
  | acq (m : LockMode)
  | rel (m : LockMode)
  | checkPendingMarker
  | createPendingMarker
  | removePendingMarker
  | yieldScope
deriving DecidableEq

/-- The event sequence of `LocalModelDirectoryDatabase.transaction`
(lines 196-217) once the open succeeded: everything from the marker
creation through commit happens inside the `with self._write_lock():`
block; on a body exception the commit is skipped but the context
manager still releases the lock. -/
def transactionEvents (bodyFails : Bool) : List DBEvent :=
  [.acq writeLockMode, .checkPendingMarker, .createPendingMarker, .yieldScope]
    ++ (if bodyFails then [] else [.removePendingMarker])
    ++ [.rel writeLockMode]

/-- The event sequence of `snapshot` (lines 182-194): the pending check
and the caller's reads happen inside `with self._read_lock():`. -/
def snapshotEvents : List DBEvent :=
  [.acq readLockMode, .checkPendingMarker, .yieldScope, .rel readLockMode]

deriving instance DecidableEq for Except

/-!
## Helper lemmas
-/

theorem lookupA_setAssoc_self {α β : Type} [DecidableEq α] (l : List (α × β)) (k : α) (v : β) :
    lookupA (setAssoc l k v) k = some v := by
  induction l with
  | nil => simp [setAssoc, lookupA]
  | cons p rest ih =>
      obtain ⟨k', v'⟩ := p
      by_cases h : k' = k
      · simp [setAssoc, h, lookupA]
      · simp [setAssoc, h, lookupA, ih]

theorem lookupA_setAssoc_other {α β : Type} [DecidableEq α] (l : List (α × β)) (k k' : α) (v : β)
    (h : k' ≠ k) : lookupA (setAssoc l k v) k' = lookupA l k' := by
  induction l with
  | nil => simp [setAssoc, lookupA, Ne.symm h]
  | cons p rest ih =>
      obtain ⟨k₀, v₀⟩ := p
      by_cases h0 : k₀ = k
      · subst h0
        simp [setAssoc, lookupA, Ne.symm h]
      · by_cases h1 : k₀ = k'
        · subst h1; simp [setAssoc, h0, lookupA]
        · simp [setAssoc, h0, lookupA, h1, ih]

theorem setAssoc_of_lookupA_none {α β : Type} [DecidableEq α] (l : List (α × β)) (k : α) (v : β)
    (h : lookupA l k = none) : setAssoc l k v = l ++ [(k, v)] := by
  induction l with
  | nil => simp [setAssoc]
  | cons p rest ih =>
      obtain ⟨k', v'⟩ := p
      by_cases hk : k' = k
      · simp [lookupA, hk] at h
      · simp only [lookupA, hk, if_false] at h
        simp [setAssoc, hk, ih h]

theorem lookupA_eq_none_of_forall {α β : Type} [DecidableEq α] {l : List (α × β)} {k : α}
    (h : ∀ p ∈ l, p.1 ≠ k) : lookupA l k = none := by
  induction l with
  | nil => rfl
  | cons p rest ih =>
      obtain ⟨k', v'⟩ := p
      simp only [lookupA, h (k', v') (List.mem_cons_self _ _), if_false]
      exact ih fun q hq => h q (List.mem_cons_of_mem _ hq)

theorem lookupA_mem {α β : Type} [DecidableEq α] {l : List (α × β)} {k : α} {v : β}
    (h : lookupA l k = some v) : (k, v) ∈ l := by
  induction l with
  | nil => simp [lookupA] at h
  | cons p rest ih =>
      obtain ⟨k', v'⟩ := p
      by_cases hk : k' = k
      · subst hk
        have hv : v' = v := by simpa [lookupA] using h
        subst hv; exact List.mem_cons_self _ _
      · simp only [lookupA, hk, if_false] at h
        exact List.mem_cons_of_mem _ (ih h)

theorem setAssoc_no_change {α β : Type} [DecidableEq α] (l : List (α × β)) (k : α) (v : β)
    (h : lookupA l k = some v) : setAssoc l k v = l := by
  induction l with
  | nil => simp [lookupA] at h
  | cons p rest ih =>
      obtain ⟨k', v'⟩ := p
      by_cases hk : k' = k
      · subst hk
        have hv : v' = v := by simpa [lookupA] using h
        subst hv; simp [setAssoc]
      · simp only [lookupA, hk, if_false] at h
        simp [setAssoc, hk, ih h]

/-!
## C2: transaction opening, marker creation, commit and error exit
-/

/-- C2: `transaction(k)` fails with `PendingTransaction` iff a `PENDING`
marker already exists for `k` — in particular a second open on the same
key without closing the first fails — and on success it creates the
marker, removes it on clean scope exit, and leaves it in place on an
error exit, so a subsequent open on that key fails with
`PendingTransaction`. -/
theorem transaction_pending_marker_protocol (db : MDB) (k : String) :
    ((openTransaction db k).2 = .error DBErr.pendingTransaction ↔ k ∈ db.pending)
  ∧ (k ∉ db.pending →
      ((openTransaction db k).2 = .ok ()
        ∧ k ∈ (openTransaction db k).1.pending
        ∧ (openTransaction (openTransaction db k).1 k).2
            = .error DBErr.pendingTransaction
        ∧ (transactionScope db k false).2 = .committed
        ∧ (transactionScope db k false).1.pending = db.pending
        ∧ (transactionScope db k true).2 = .bodyError
        ∧ k ∈ (transactionScope db k true).1.pending
        ∧ (transactionScope (transactionScope db k true).1 k false).2
            = .pendingError)) := by
  by_cases h : k ∈ db.pending <;>
    simp [openTransaction, transactionScope, commitTransaction, mkMetaDir, h]

/-- Witness for C2 on the empty database and key `m1`. -/
theorem transaction_pending_marker_protocol_witness :
    (openTransaction ⟨[], [], [], ⟨[], [], []⟩, []⟩ "m1").2 = .ok ()
  ∧ "m1" ∈ (openTransaction ⟨[], [], [], ⟨[], [], []⟩, []⟩ "m1").1.pending
  ∧ (openTransaction (openTransaction ⟨[], [], [], ⟨[], [], []⟩, []⟩ "m1").1 "m1").2
      = .error DBErr.pendingTransaction
  ∧ (transactionScope ⟨[], [], [], ⟨[], [], []⟩, []⟩ "m1" false).2 = .committed
  ∧ (transactionScope ⟨[], [], [], ⟨[], [], []⟩, []⟩ "m1" false).1.pending = []
  ∧ (transactionScope ⟨[], [], [], ⟨[], [], []⟩, []⟩ "m1" true).2 = .bodyError
  ∧ "m1" ∈ (transactionScope ⟨[], [], [], ⟨[], [], []⟩, []⟩ "m1" true).1.pending
  ∧ (transactionScope (transactionScope ⟨[], [], [], ⟨[], [], []⟩, []⟩ "m1" true).1
        "m1" false).2 = .pendingError :=
  (transaction_pending_marker_protocol ⟨[], [], [], ⟨[], [], []⟩, []⟩ "m1").2
    (by decide)

/-!
## C3: snapshot opening and the pending check
-/

/-- C3: `snapshot(k)` fails with `Pending` exactly when a `PENDING`
marker exists for `k` at check time; while a transaction on `k` is open
the snapshot fails, and it succeeds immediately after that
transaction's scope exits cleanly. -/
theorem snapshot_pending_check (db : MDB) (k : String) :
    ((snapshotOpen db k).2 = .error DBErr.pendingTransaction ↔ k ∈ db.pending)
  ∧ (k ∉ db.pending →
      ((openTransaction db k).2 = .ok ()
        ∧ (snapshotOpen (openTransaction db k).1 k).2
            = .error DBErr.pendingTransaction
        ∧ (snapshotOpen (transactionScope db k false).1 k).2 = .ok ())) := by
  by_cases h : k ∈ db.pending <;>
    simp [snapshotOpen, openTransaction, transactionScope, commitTransaction,
      mkMetaDir, h]

/-- Witness for C3 on the empty database and key `m1`. -/
theorem snapshot_pending_check_witness :
    (openTransaction ⟨[], [], [], ⟨[], [], []⟩, []⟩ "m1").2 = .ok ()
  ∧ (snapshotOpen (openTransaction ⟨[], [], [], ⟨[], [], []⟩, []⟩ "m1").1 "m1").2
      = .error DBErr.pendingTransaction
  ∧ (snapshotOpen (transactionScope ⟨[], [], [], ⟨[], [], []⟩, []⟩ "m1" false).1
        "m1").2 = .ok () :=
  (snapshot_pending_check ⟨[], [], [], ⟨[], [], []⟩, []⟩ "m1").2 (by decide)

/-!
## Folding directory copies
-/

theorem lookupA_foldl_setAssoc_notmem {α β : Type} [DecidableEq α]
    (l : List (α × β)) (d : List (α × β)) (k : α) (h : ∀ p ∈ l, p.1 ≠ k) :
    lookupA (l.foldl (fun acc e => setAssoc acc e.1 e.2) d) k = lookupA d k := by
  induction l generalizing d with
  | nil => rfl
  | cons p rest ih =>
      rw [List.foldl_cons,
        ih _ fun q hq => h q (List.mem_cons_of_mem _ hq),
        lookupA_setAssoc_other _ _ _ _ (Ne.symm (h p (List.mem_cons_self _ _)))]

theorem lookupA_foldl_setAssoc_mem {α β : Type} [DecidableEq α]
    (l : List (α × β)) (d : List (α × β)) (hnd : (l.map Prod.fst).Nodup) :
    ∀ p ∈ l, lookupA (l.foldl (fun acc e => setAssoc acc e.1 e.2) d) p.1 = some p.2 := by
  induction l generalizing d with
  | nil => intro p hp; simp at hp
  | cons q rest ih =>
      simp only [List.map_cons, List.nodup_cons, List.mem_map] at hnd
      intro p hp
      rcases List.mem_cons.mp hp with hph | hpr
      · subst hph
        rw [List.foldl_cons,
          lookupA_foldl_setAssoc_notmem _ _ _
            (fun r hr hrk => hnd.1 ⟨r, hr, hrk⟩),
          lookupA_setAssoc_self]
      · exact ih _ hnd.2 p hpr

theorem foldl_setAssoc_no_change {α β : Type} [DecidableEq α]
    (l : List (α × β)) (d : List (α × β)) (h : ∀ p ∈ l, lookupA d p.1 = some p.2) :
    l.foldl (fun acc e => setAssoc acc e.1 e.2) d = d := by
  induction l with
  | nil => rfl
  | cons p rest ih =>
      rw [List.foldl_cons, setAssoc_no_change _ _ _ (h p (List.mem_cons_self _ _))]
      exact ih fun q hq => h q (List.mem_cons_of_mem _ hq)

theorem foldl_setAssoc_idem {α β : Type} [DecidableEq α]
    (l : List (α × β)) (d : List (α × β)) (hnd : (l.map Prod.fst).Nodup) :
    l.foldl (fun acc e => setAssoc acc e.1 e.2)
        (l.foldl (fun acc e => setAssoc acc e.1 e.2) d)
      = l.foldl (fun acc e => setAssoc acc e.1 e.2) d :=
  foldl_setAssoc_no_change _ _ (lookupA_foldl_setAssoc_mem _ _ hnd)

/-!
## C6: snapshot reads and the record
-/

/-- C6 counterexample: opening a snapshot on a key whose record does not
yet exist creates directories of the model record —
`destination.mkdir(parents=True, exist_ok=True)` runs before the
pending check, so the open itself mutates the record. -/
theorem snapshot_open_creates_record_dir :
    (snapshotOpen ⟨[], [], [], ⟨[], [], []⟩, []⟩ "m1").1
      ≠ ⟨[], [], [], ⟨[], [], []⟩, []⟩ := by decide

/-- C6 amended: when the record and its metadata directory already
exist, opening a snapshot changes nothing in the database; each read
operation leaves the record's files and directories untouched and the
reads depend only on the record (their results are invariant under the
state outside the record). `retrieve_file`/`retrieve_model` reads are
repeatable, but `retrieve_local_files` is repeatable only for a record
without subdirectories: re-running it into the same destination raises
`FileExistsError` as soon as the record has a subdirectory (and a real
record always has `.pharmpy`), because `shutil.copytree` refuses an
existing destination directory. -/
theorem snapshot_reads_pure (db : MDB) (k : String) (s s' : SnapFS)
    (parseModel : Nat → Nat) (parseRes : Nat → Option Nat) (readRes : Nat → Nat)
    (name filename : String) (d : List (String × Nat))
    (dd : List (String × List (String × Nat)))
    (hrec : k ∈ db.records) (hmeta : k ∈ db.metaDirs)
    (hf : (s.recFiles.map Prod.fst).Nodup) (hd : (s.recDirs.map Prod.fst).Nodup)
    (hs' : snapRetrieveLocalFiles s = .ok s') :
    (snapshotOpen db k).1 = db
  ∧ s'.recFiles = s.recFiles
  ∧ s'.recDirs = s.recDirs
  ∧ (s.recDirs = [] → snapRetrieveLocalFiles s' = .ok s')
  ∧ (s.recDirs ≠ [] → snapRetrieveLocalFiles s' = .error SnapErr.fileExistsError)
  ∧ snapRetrieveFile { s with dest := d, destDirs := dd } filename
      = snapRetrieveFile s filename
  ∧ snapRetrieveModel parseModel { s with dest := d, destDirs := dd } name
      = snapRetrieveModel parseModel s name
  ∧ snapRetrieveModelfitResults parseModel parseRes readRes
        { s with dest := d, destDirs := dd } name
      = snapRetrieveModelfitResults parseModel parseRes readRes s name := by
  have hsplit : s' = { s with
      dest := s.recFiles.foldl (fun acc e => setAssoc acc e.1 e.2) s.dest,
      destDirs := s.recDirs.foldl (fun acc e => setAssoc acc e.1 e.2) s.destDirs } := by
    by_cases hA : (s.recDirs.any fun e => (lookupA s.destDirs e.1).isSome) = true
    · rw [snapRetrieveLocalFiles, if_pos hA] at hs'
      exact absurd hs' (by simp)
    · rw [snapRetrieveLocalFiles, if_neg hA] at hs'
      exact (Except.ok.inj hs').symm
  refine ⟨?_, by rw [hsplit], by rw [hsplit], ?_, ?_, rfl, rfl, rfl⟩
  · simp [snapshotOpen, mkMetaDir, insertNew, hrec, hmeta]
  · intro hempty
    rw [hsplit]
    simp [snapRetrieveLocalFiles, hempty, foldl_setAssoc_idem s.recFiles s.dest hf]
  · intro hne
    obtain ⟨e, he⟩ := List.exists_mem_of_ne_nil s.recDirs hne
    rw [hsplit, snapRetrieveLocalFiles, if_pos]
    refine List.any_eq_true.mpr ⟨e, he, ?_⟩
    rw [lookupA_foldl_setAssoc_mem s.recDirs s.destDirs hd e he]
    rfl

/-- Witness for C6's amended theorem on a record with one file and its
metadata subdirectory. -/
theorem snapshot_reads_pure_witness :
    (snapshotOpen ⟨[], ["m1"], ["m1"], ⟨[], [], []⟩, []⟩ "m1").1
      = ⟨[], ["m1"], ["m1"], ⟨[], [], []⟩, []⟩
  ∧ (⟨[("m1.mod", 3)], [(".pharmpy", [("metadata.json", 1)])], [("m1.mod", 3)],
        [(".pharmpy", [("metadata.json", 1)])]⟩ : SnapFS).recFiles
      = [("m1.mod", 3)]
  ∧ snapRetrieveLocalFiles
        ⟨[("m1.mod", 3)], [(".pharmpy", [("metadata.json", 1)])], [("m1.mod", 3)],
          [(".pharmpy", [("metadata.json", 1)])]⟩
      = .error SnapErr.fileExistsError
  ∧ snapRetrieveFile
        { (⟨[("m1.mod", 3)], [(".pharmpy", [("metadata.json", 1)])], [], []⟩ :
            SnapFS) with dest := [("x", 1)], destDirs := [] } "m1.mod"
      = snapRetrieveFile
          ⟨[("m1.mod", 3)], [(".pharmpy", [("metadata.json", 1)])], [], []⟩ "m1.mod"
  ∧ snapRetrieveModel Nat.succ
        { (⟨[("m1.mod", 3)], [(".pharmpy", [("metadata.json", 1)])], [], []⟩ :
            SnapFS) with dest := [("x", 1)], destDirs := [] } "m1"
      = snapRetrieveModel Nat.succ
          ⟨[("m1.mod", 3)], [(".pharmpy", [("metadata.json", 1)])], [], []⟩ "m1" :=
  ⟨(snapshot_reads_pure ⟨[], ["m1"], ["m1"], ⟨[], [], []⟩, []⟩ "m1"
      ⟨[("m1.mod", 3)], [(".pharmpy", [("metadata.json", 1)])], [], []⟩
      ⟨[("m1.mod", 3)], [(".pharmpy", [("metadata.json", 1)])], [("m1.mod", 3)],
        [(".pharmpy", [("metadata.json", 1)])]⟩
      Nat.succ (fun _ => none) Nat.succ "m1" "m1.mod" [("x", 1)] []
      (by decide) (by decide) (by decide) (by decide) (by decide)).1,
   (snapshot_reads_pure ⟨[], ["m1"], ["m1"], ⟨[], [], []⟩, []⟩ "m1"
      ⟨[("m1.mod", 3)], [(".pharmpy", [("metadata.json", 1)])], [], []⟩
      ⟨[("m1.mod", 3)], [(".pharmpy", [("metadata.json", 1)])], [("m1.mod", 3)],
        [(".pharmpy", [("metadata.json", 1)])]⟩
      Nat.succ (fun _ => none) Nat.succ "m1" "m1.mod" [("x", 1)] []
      (by decide) (by decide) (by decide) (by decide) (by decide)).2.1,
   (snapshot_reads_pure ⟨[], ["m1"], ["m1"], ⟨[], [], []⟩, []⟩ "m1"
      ⟨[("m1.mod", 3)], [(".pharmpy", [("metadata.json", 1)])], [], []⟩
      ⟨[("m1.mod", 3)], [(".pharmpy", [("metadata.json", 1)])], [("m1.mod", 3)],
        [(".pharmpy", [("metadata.json", 1)])]⟩
      Nat.succ (fun _ => none) Nat.succ "m1" "m1.mod" [("x", 1)] []
      (by decide) (by decide) (by decide) (by decide)
      (by decide)).2.2.2.2.1 (by decide),
   (snapshot_reads_pure ⟨[], ["m1"], ["m1"], ⟨[], [], []⟩, []⟩ "m1"
      ⟨[("m1.mod", 3)], [(".pharmpy", [("metadata.json", 1)])], [], []⟩
      ⟨[("m1.mod", 3)], [(".pharmpy", [("metadata.json", 1)])], [("m1.mod", 3)],
        [(".pharmpy", [("metadata.json", 1)])]⟩
      Nat.succ (fun _ => none) Nat.succ "m1" "m1.mod" [("x", 1)] []
      (by decide) (by decide) (by decide) (by decide)
      (by decide)).2.2.2.2.2.1,
   (snapshot_reads_pure ⟨[], ["m1"], ["m1"], ⟨[], [], []⟩, []⟩ "m1"
      ⟨[("m1.mod", 3)], [(".pharmpy", [("metadata.json", 1)])], [], []⟩
      ⟨[("m1.mod", 3)], [(".pharmpy", [("metadata.json", 1)])], [("m1.mod", 3)],
        [(".pharmpy", [("metadata.json", 1)])]⟩
      Nat.succ (fun _ => none) Nat.succ "m1" "m1.mod" [("x", 1)] []
      (by decide) (by decide) (by decide) (by decide)
      (by decide)).2.2.2.2.2.2.1⟩

/-!
## C7: `store_local_file` inside a transaction
-/

theorem getLastD_append_singleton {α : Type} (l : List α) (a : α) :
    ∀ d, (l ++ [a]).getLastD d = a := by
  induction l with
  | nil => intro d; rfl
  | cons x xs ih =>
      intro d
      rw [List.cons_append, List.getLastD_cons, ih]

/-- C7 counterexample: a transaction's `store_local_file` copies a file
that lives inside the store's own managed paths — nothing is ignored,
the record changes. -/
theorem tx_store_local_file_copies_from_store :
    insideStore ["db"] ["db", ".datasets", "run1.csv"] = true
  ∧ txStoreLocalFile ["db"] "m1" [(["db", ".datasets", "run1.csv"], 7)]
        ["db", ".datasets", "run1.csv"] (some "copy.csv")
      ≠ .ok [(["db", ".datasets", "run1.csv"], 7)] := by decide

/-- C7 amended: for an open transaction, `store_local_file(p)` copies
the file at `p` verbatim into the record whenever `p` is an existing
regular file — with no exception for files inside the store's own
managed paths — under the new name when given, else under its own
basename; when `p` is not a regular file nothing happens; and when the
destination is `p` itself (copying a record file onto itself),
`shutil.copy2` raises `SameFileError` and nothing is copied. -/
theorem tx_store_local_file_copies_verbatim (dbPath : FPath) (modelName : String)
    (allFiles fs₂ fs₃ : List (FPath × Nat)) (p p₃ : FPath) (c c₃ : Nat)
    (newName base : String)
    (hp : lookupA allFiles p = some c)
    (hne : dbPath ++ [modelName, newName] ≠ p)
    (hne2 : dbPath ++ [modelName, p.getLastD ""] ≠ p)
    (hnone : lookupA fs₂ p = none)
    (hp₃ : p₃ = dbPath ++ [modelName, base])
    (hf₃ : lookupA fs₃ p₃ = some c₃) :
    txStoreLocalFile dbPath modelName allFiles p (some newName)
      = .ok (setAssoc allFiles (dbPath ++ [modelName, newName]) c)
  ∧ lookupA (setAssoc allFiles (dbPath ++ [modelName, newName]) c)
        (dbPath ++ [modelName, newName]) = some c
  ∧ txStoreLocalFile dbPath modelName allFiles p none
      = .ok (setAssoc allFiles (dbPath ++ [modelName, p.getLastD ""]) c)
  ∧ lookupA (setAssoc allFiles (dbPath ++ [modelName, p.getLastD ""]) c)
        (dbPath ++ [modelName, p.getLastD ""]) = some c
  ∧ txStoreLocalFile dbPath modelName fs₂ p (some newName) = .ok fs₂
  ∧ txStoreLocalFile dbPath modelName fs₂ p none = .ok fs₂
  ∧ txStoreLocalFile dbPath modelName fs₃ p₃ none = .error TxErr.sameFileError := by
  have hassoc : ∀ x : String, dbPath ++ [modelName] ++ [x] = dbPath ++ [modelName, x] := by
    intro x; simp
  refine ⟨?_, lookupA_setAssoc_self _ _ _, ?_, lookupA_setAssoc_self _ _ _,
    ?_, ?_, ?_⟩
  · simp only [txStoreLocalFile, hp, hassoc]
    rw [if_neg hne]
  · simp only [txStoreLocalFile, hp, hassoc]
    rw [if_neg hne2]
  · simp [txStoreLocalFile, hnone]
  · simp [txStoreLocalFile, hnone]
  · have hlast : p₃.getLastD "" = base := by
      rw [hp₃, show dbPath ++ [modelName, base] = (dbPath ++ [modelName]) ++ [base]
        by simp, getLastD_append_singleton]
    simp only [txStoreLocalFile, hf₃, hlast, hassoc]
    rw [if_pos hp₃.symm]

/-- Witness for C7's amended theorem. -/
theorem tx_store_local_file_copies_verbatim_witness :
    txStoreLocalFile ["db"] "m1" [(["tmp", "a.txt"], 7)] ["tmp", "a.txt"]
        (some "b.txt")
      = .ok (setAssoc [(["tmp", "a.txt"], 7)] ["db", "m1", "b.txt"] 7)
  ∧ lookupA (setAssoc [(["tmp", "a.txt"], 7)] ["db", "m1", "b.txt"] 7)
        ["db", "m1", "b.txt"] = some 7
  ∧ txStoreLocalFile ["db"] "m1" [(["tmp", "a.txt"], 7)] ["tmp", "a.txt"] none
      = .ok (setAssoc [(["tmp", "a.txt"], 7)]
          ["db", "m1", ["tmp", "a.txt"].getLastD ""] 7)
  ∧ lookupA (setAssoc [(["tmp", "a.txt"], 7)]
        ["db", "m1", ["tmp", "a.txt"].getLastD ""] 7)
        ["db", "m1", ["tmp", "a.txt"].getLastD ""] = some 7
  ∧ txStoreLocalFile ["db"] "m1" [] ["tmp", "a.txt"] (some "b.txt") = .ok []
  ∧ txStoreLocalFile ["db"] "m1" [] ["tmp", "a.txt"] none = .ok []
  ∧ txStoreLocalFile ["db"] "m1" [(["db", "m1", "a.txt"], 5)] ["db", "m1", "a.txt"]
        none = .error TxErr.sameFileError :=
  tx_store_local_file_copies_verbatim ["db"] "m1" [(["tmp", "a.txt"], 7)] []
    [(["db", "m1", "a.txt"], 5)] ["tmp", "a.txt"] ["db", "m1", "a.txt"] 7 5
    "b.txt" "a.txt" (by decide) (by decide) (by decide) (by decide) (by decide)
    (by decide)

/-!
## C4 and C10: name links
-/

/-- C4 counterexample: re-linking a name to a different key does not
overwrite — `store_key` keeps the existing link, so resolving returns
the first key, not the new one. -/
theorem store_key_no_overwrite_counterexample :
    (retrieve_key (store_key (store_key
          ⟨[], ⟨[], [], ["k1", "k2"], ⟨[], [], []⟩, []⟩⟩ "n" "k1") "n" "k2") "n").2
      = .ok "k1"
  ∧ "k1" ≠ "k2" := by decide

/-- C4 amended: `store_key(name, k)` followed by `retrieve_key(name)`
returns `k` (for an unbound name whose record exists and is not
pending); re-linking the same name to the same key is a no-op;
re-linking to a *different* key `k₂` is also a no-op — the existing
link is kept and resolving still returns `k`; and, provided no other
link resolves to `k`, `name` is the unique link name for `k` — so
`retrieve_name(k)` returns `name` in every directory iteration
order. -/
theorem store_key_retrieve_key_roundtrip (s : CtxState) (name k k₂ : String)
    (hnew : lookupA s.links name = none) (hrec : k ∈ s.db.records)
    (hnp : k ∉ s.db.pending) (hkuniq : ∀ p ∈ s.links, p.2 ≠ k) :
    (retrieve_key (store_key s name k) name).2 = .ok k
  ∧ store_key (store_key s name k) name k = store_key s name k
  ∧ store_key (store_key s name k) name k₂ = store_key s name k
  ∧ (retrieve_key (store_key (store_key s name k) name k₂) name).2 = .ok k
  ∧ retrieve_name (store_key (store_key s name k) name k₂) k = .ok name
  ∧ (∀ p ∈ (store_key (store_key s name k) name k₂).links,
        p.2 = k → p.1 = name) := by
  have hs1 : store_key s name k = { s with links := (name, k) :: s.links } := by
    simp [store_key, hnew, hrec]
  have hlook : lookupA ((name, k) :: s.links) name = some k := by
    simp [lookupA]
  have hs2 : ∀ key₀ : String,
      store_key { s with links := (name, k) :: s.links } name key₀
        = { s with links := (name, k) :: s.links } := by
    intro key₀
    simp [store_key, hlook]
  refine ⟨?_, ?_, ?_, ?_, ?_, ?_⟩
  · rw [hs1]
    simp [retrieve_key, hlook, snapshotOpen, mkMetaDir, hnp]
  · rw [hs1, hs2]
  · rw [hs1, hs2]
  · rw [hs1, hs2]
    simp [retrieve_key, hlook, snapshotOpen, mkMetaDir, hnp]
  · rw [hs1, hs2]
    simp [retrieve_name, List.find?]
  · rw [hs1, hs2]
    intro p hp hpk
    rcases List.mem_cons.mp hp with h1 | h2
    · rw [h1]
    · exact absurd hpk (hkuniq p h2)

/-- Witness for C4's amended theorem. -/
theorem store_key_retrieve_key_roundtrip_witness :
    (retrieve_key (store_key ⟨[], ⟨[], [], ["k1", "k2"], ⟨[], [], []⟩, []⟩⟩
        "n" "k1") "n").2 = .ok "k1"
  ∧ store_key (store_key ⟨[], ⟨[], [], ["k1", "k2"], ⟨[], [], []⟩, []⟩⟩ "n" "k1")
        "n" "k1"
      = store_key ⟨[], ⟨[], [], ["k1", "k2"], ⟨[], [], []⟩, []⟩⟩ "n" "k1"
  ∧ store_key (store_key ⟨[], ⟨[], [], ["k1", "k2"], ⟨[], [], []⟩, []⟩⟩ "n" "k1")
        "n" "k2"
      = store_key ⟨[], ⟨[], [], ["k1", "k2"], ⟨[], [], []⟩, []⟩⟩ "n" "k1"
  ∧ (retrieve_key (store_key (store_key
        ⟨[], ⟨[], [], ["k1", "k2"], ⟨[], [], []⟩, []⟩⟩ "n" "k1") "n" "k2") "n").2
      = .ok "k1"
  ∧ retrieve_name (store_key (store_key
        ⟨[], ⟨[], [], ["k1", "k2"], ⟨[], [], []⟩, []⟩⟩ "n" "k1") "n" "k2") "k1"
      = .ok "n" :=
  ⟨(store_key_retrieve_key_roundtrip ⟨[], ⟨[], [], ["k1", "k2"], ⟨[], [], []⟩, []⟩⟩
      "n" "k1" "k2" (by decide) (by decide) (by decide) (by decide)).1,
   (store_key_retrieve_key_roundtrip ⟨[], ⟨[], [], ["k1", "k2"], ⟨[], [], []⟩, []⟩⟩
      "n" "k1" "k2" (by decide) (by decide) (by decide) (by decide)).2.1,
   (store_key_retrieve_key_roundtrip ⟨[], ⟨[], [], ["k1", "k2"], ⟨[], [], []⟩, []⟩⟩
      "n" "k1" "k2" (by decide) (by decide) (by decide) (by decide)).2.2.1,
   (store_key_retrieve_key_roundtrip ⟨[], ⟨[], [], ["k1", "k2"], ⟨[], [], []⟩, []⟩⟩
      "n" "k1" "k2" (by decide) (by decide) (by decide) (by decide)).2.2.2.1,
   (store_key_retrieve_key_roundtrip ⟨[], ⟨[], [], ["k1", "k2"], ⟨[], [], []⟩, []⟩⟩
      "n" "k1" "k2" (by decide) (by decide) (by decide) (by decide)).2.2.2.2.1⟩

/-- C10: `store_key` never raises: when the name is already bound to
some key in this context, or when the key's record directory does not
exist in the model database, the call silently does nothing — no link
is created, no existing link changes — so a later `retrieve_key` on a
name whose key was absent at link time fails with `NotFound`. -/
theorem store_key_silent_noop (s : CtxState) (name key : String) :
    ((lookupA s.links name).isSome → store_key s name key = s)
  ∧ (key ∉ s.db.records → store_key s name key = s)
  ∧ (lookupA s.links name = none → key ∉ s.db.records →
      (retrieve_key (store_key s name key) name).2 = .error CtxErr.notFound) := by
  refine ⟨fun h => ?_, fun h => ?_, fun h1 h2 => ?_⟩
  · simp [store_key, h]
  · by_cases h1 : (lookupA s.links name).isSome <;> simp [store_key, h, h1]
  · have : store_key s name key = s := by simp [store_key, h1, h2]
    rw [this]
    simp [retrieve_key, h1]

/-- Witness for C10: one bound name, one absent record. -/
theorem store_key_silent_noop_witness :
    store_key ⟨[("a", "x")], ⟨[], [], [], ⟨[], [], []⟩, []⟩⟩ "a" "k"
      = ⟨[("a", "x")], ⟨[], [], [], ⟨[], [], []⟩, []⟩⟩
  ∧ store_key ⟨[("a", "x")], ⟨[], [], [], ⟨[], [], []⟩, []⟩⟩ "b" "k"
      = ⟨[("a", "x")], ⟨[], [], [], ⟨[], [], []⟩, []⟩⟩
  ∧ (retrieve_key (store_key ⟨[("a", "x")], ⟨[], [], [], ⟨[], [], []⟩, []⟩⟩
        "b" "k") "b").2 = .error CtxErr.notFound :=
  ⟨(store_key_silent_noop ⟨[("a", "x")], ⟨[], [], [], ⟨[], [], []⟩, []⟩⟩ "a" "k").1
      (by decide),
   (store_key_silent_noop ⟨[("a", "x")], ⟨[], [], [], ⟨[], [], []⟩, []⟩⟩ "b" "k").2.1
      (by decide),
   (store_key_silent_noop ⟨[("a", "x")], ⟨[], [], [], ⟨[], [], []⟩, []⟩⟩ "b" "k").2.2
      (by decide) (by decide)⟩

/-!
## C8: name resolution and stored content
-/

/-- C8 counterexample: `retrieve_key` does not operate on the name-link
directory alone — it opens a database snapshot, so with the link in
place but a pending transaction on the record it raises
`PendingTransactionError` instead of returning the linked key, and it
even creates the record's metadata directory. -/
theorem retrieve_key_not_link_only_counterexample :
    lookupA (⟨[("n", "k")], ⟨["k"], [], ["k"], ⟨[], [], []⟩, []⟩⟩ : CtxState).links "n"
      = some "k"
  ∧ (retrieve_key ⟨[("n", "k")], ⟨["k"], [], ["k"], ⟨[], [], []⟩, []⟩⟩ "n").2
      ≠ .ok "k"
  ∧ (retrieve_key ⟨[("n", "k")], ⟨["k"], [], ["k"], ⟨[], [], []⟩, []⟩⟩ "n").1
      ≠ ⟨[("n", "k")], ⟨["k"], [], ["k"], ⟨[], [], []⟩, []⟩⟩ := by decide

/-- C8 amended: `store_key` and `retrieve_key` never touch the
content-addressed dataset store and never read or write any stored
model's bytes: both leave those areas unchanged and their results are
invariant under arbitrary changes to them (resolution additionally
consults the record's `PENDING` marker through the snapshot it
opens). -/
theorem name_links_never_touch_content (s : CtxState) (name key : String)
    (ds : DSArea) (mb : List (String × Nat)) :
    (store_key s name key).db.datasets = s.db.datasets
  ∧ (store_key s name key).db.modelBytes = s.db.modelBytes
  ∧ (retrieve_key s name).1.db.datasets = s.db.datasets
  ∧ (retrieve_key s name).1.db.modelBytes = s.db.modelBytes
  ∧ (retrieve_key { s with db := { s.db with datasets := ds, modelBytes := mb } }
        name).2 = (retrieve_key s name).2
  ∧ (store_key { s with db := { s.db with datasets := ds, modelBytes := mb } }
        name key).links = (store_key s name key).links := by
  have hsk : ∀ t : CtxState, (store_key t name key).db = t.db := by
    intro t
    by_cases h1 : (lookupA t.links name).isSome
    · simp [store_key, h1]
    · by_cases h2 : key ∈ t.db.records <;> simp [store_key, h1, h2]
  refine ⟨by rw [hsk], by rw [hsk], ?_, ?_, ?_, ?_⟩
  · cases h : lookupA s.links name with
    | none => simp [retrieve_key, h]
    | some digest =>
        by_cases hp : digest ∈ s.db.pending <;>
          simp [retrieve_key, h, snapshotOpen, mkMetaDir, hp]
  · cases h : lookupA s.links name with
    | none => simp [retrieve_key, h]
    | some digest =>
        by_cases hp : digest ∈ s.db.pending <;>
          simp [retrieve_key, h, snapshotOpen, mkMetaDir, hp]
  · cases h : lookupA s.links name with
    | none => simp [retrieve_key, h]
    | some digest =>
        by_cases hp : digest ∈ s.db.pending <;>
          simp [retrieve_key, h, snapshotOpen, mkMetaDir, hp]
  · by_cases h1 : (lookupA s.links name).isSome
    · simp [store_key, h1]
    · by_cases h2 : key ∈ s.db.records <;> simp [store_key, h1, h2]

/-!
## C5: log rows and scope filtering
-/

theorem countSlash_append (a b : String) :
    countSlash (a ++ b) = countSlash a + countSlash b := by
  simp [countSlash, String.toList, String.data_append, List.count_append]

/-- C5: every `store_message` appends exactly one row to the single root
log, tagged with the caller's logical context path; a message appended
from a subcontext is visible at the root with scope `everything`/`all`
and with scope `this-and-descendants`/`lower`, but invisible with scope
`this`/`current`, because its recorded logical path is deeper than the
root's. -/
theorem log_subcontext_visibility (log : List LogRow)
    (root sub severity date message : String)
    (hr : countSlash root = 0) (hs : countSlash sub = 0) :
    store_message log severity (context_path [root, sub]) date message
      = log ++ [⟨context_path [root, sub], date, severity, mangleMessage message⟩]
  ∧ (⟨context_path [root, sub], date, severity, mangleMessage message⟩ : LogRow)
      ∈ retrieve_log
          (store_message log severity (context_path [root, sub]) date message)
          (context_path [root]) .all
  ∧ (⟨context_path [root, sub], date, severity, mangleMessage message⟩ : LogRow)
      ∈ retrieve_log
          (store_message log severity (context_path [root, sub]) date message)
          (context_path [root]) .lower
  ∧ (⟨context_path [root, sub], date, severity, mangleMessage message⟩ : LogRow)
      ∉ retrieve_log
          (store_message log severity (context_path [root, sub]) date message)
          (context_path [root]) .current := by
  have hpath : context_path [root, sub] = root ++ "/" ++ sub := rfl
  have hroot : context_path [root] = root := rfl
  have hdeep : countSlash (context_path [root, sub]) = 1 := by
    rw [hpath, countSlash_append, countSlash_append, hr, hs]
    decide
  have hmem : (⟨context_path [root, sub], date, severity, mangleMessage message⟩ : LogRow)
      ∈ store_message log severity (context_path [root, sub]) date message :=
    List.mem_append_right _ (List.mem_singleton.mpr rfl)
  refine ⟨rfl, hmem, ?_, ?_⟩
  · exact List.mem_filter.mpr ⟨hmem, by simp [hroot, hr, hdeep]⟩
  · intro hin
    have := (List.mem_filter.mp hin).2
    rw [hroot] at this
    simp [hr, hdeep] at this

/-- Witness for C5 with root `R`, subcontext `A`. -/
theorem log_subcontext_visibility_witness :
    store_message [] "ERROR" (context_path ["R", "A"]) "d" "m"
      = [] ++ [⟨context_path ["R", "A"], "d", "ERROR", mangleMessage "m"⟩]
  ∧ (⟨context_path ["R", "A"], "d", "ERROR", mangleMessage "m"⟩ : LogRow)
      ∈ retrieve_log (store_message [] "ERROR" (context_path ["R", "A"]) "d" "m")
          (context_path ["R"]) .all
  ∧ (⟨context_path ["R", "A"], "d", "ERROR", mangleMessage "m"⟩ : LogRow)
      ∈ retrieve_log (store_message [] "ERROR" (context_path ["R", "A"]) "d" "m")
          (context_path ["R"]) .lower
  ∧ (⟨context_path ["R", "A"], "d", "ERROR", mangleMessage "m"⟩ : LogRow)
      ∉ retrieve_log (store_message [] "ERROR" (context_path ["R", "A"]) "d" "m")
          (context_path ["R"]) .current :=
  log_subcontext_visibility [] "R" "A" "ERROR" "d" "m" (by decide) (by decide)

/-!
## C9: database-wide locking discipline
-/

theorem lock_step_sane {s s' : LockHolders} (hstep : LockStep s s')
    (ih : LockSane s) : LockSane s' := by
  cases hstep with
  | acquire _ i m hcan =>
      intro p hp hpx
      cases m with
      | exclusive =>
          have hst : s = [] := by simpa [canAcquire] using hcan
          subst hst
          rw [List.mem_singleton.mp hp]
      | shared =>
          have hall : ∀ a b, (a, b) ∈ s → b = LockMode.shared := by
            simpa [canAcquire, List.all_eq_true] using hcan
          obtain ⟨a, b⟩ := p
          rcases List.mem_cons.mp hp with h1 | h2
          · rw [h1] at hpx; simp at hpx
          · rw [hall a b h2] at hpx; simp at hpx
  | release s₁ s₂ i m =>
      intro p hp hpx
      have hfull : p ∈ s₁ ++ (i, m) :: s₂ := by
        rcases List.mem_append.mp hp with h1 | h2
        · exact List.mem_append.mpr (Or.inl h1)
        · exact List.mem_append.mpr (Or.inr (List.mem_cons_of_mem _ h2))
      have heq := ih p hfull hpx
      have hlen := congrArg List.length heq
      simp only [List.length_append, List.length_cons, List.length_nil] at hlen
      have h1 : s₁.length = 0 := by omega
      have h2 : s₂.length = 0 := by omega
      rw [List.length_eq_zero] at h1 h2
      subst h1; subst h2
      simp at hp

theorem lock_reach_sane {st : LockHolders} (h : LockReach st) : LockSane st := by
  induction h with
  | init => intro p hp; simp at hp
  | step hreach hstep ih => exact lock_step_sane hstep ih

/-- C9: a transaction takes the database-wide lock exclusively and a
snapshot takes it shared; the lock is held for the operation's entire
lifetime (marker creation through commit sits strictly inside the
acquire/release pair); acquiring shared is impossible while an
exclusive holder (a transaction) is present, acquiring exclusive is
impossible until every holder has released, two shared holders
(snapshots) are simultaneously reachable, and every reachable lock
state keeps an exclusive holder alone. -/
theorem database_wide_locking :
    writeLockMode = LockMode.exclusive
  ∧ readLockMode = LockMode.shared
  ∧ (∀ b : Bool, ∃ inner : List DBEvent, transactionEvents b
        = DBEvent.acq writeLockMode :: inner ++ [DBEvent.rel writeLockMode]
        ∧ DBEvent.createPendingMarker ∈ inner
        ∧ (b = false → DBEvent.removePendingMarker ∈ inner))
  ∧ (∃ inner : List DBEvent, snapshotEvents
        = DBEvent.acq readLockMode :: inner ++ [DBEvent.rel readLockMode]
        ∧ DBEvent.checkPendingMarker ∈ inner ∧ DBEvent.yieldScope ∈ inner)
  ∧ (∀ st : LockHolders, ∀ i : Nat, (i, writeLockMode) ∈ st →
        canAcquire st readLockMode = false)
  ∧ (∀ st : LockHolders, canAcquire st writeLockMode = true ↔ st = [])
  ∧ LockReach [(1, readLockMode), (0, readLockMode)]
  ∧ (∀ st : LockHolders, LockReach st → LockSane st) := by
  refine ⟨rfl, rfl, ?_, ?_, ?_, ?_, ?_, fun st h => lock_reach_sane h⟩
  · intro b
    cases b
    · exact ⟨[.checkPendingMarker, .createPendingMarker, .yieldScope,
        .removePendingMarker], by decide, by decide, fun _ => by decide⟩
    · exact ⟨[.checkPendingMarker, .createPendingMarker, .yieldScope],
        by decide, by decide, fun h => by simp at h⟩
  · exact ⟨[.checkPendingMarker, .yieldScope], by decide, by decide, by decide⟩
  · intro st i hmem
    cases hx : canAcquire st LockMode.shared with
    | false => exact hx
    | true =>
        exfalso
        have hall : ∀ a b, (a, b) ∈ st → b = LockMode.shared := by
          simpa [canAcquire, List.all_eq_true] using hx
        have := hall i writeLockMode hmem
        simp [writeLockMode, pathLockMode] at this
  · intro st
    cases st <;> simp [canAcquire, writeLockMode, pathLockMode]
  · exact LockReach.step
      (LockReach.step LockReach.init (LockStep.acquire [] 0 .shared (by decide)))
      (LockStep.acquire [(0, readLockMode)] 1 .shared (by decide))

/-- Witness for C9 at concrete lock states. -/
theorem database_wide_locking_witness :
    canAcquire [(0, writeLockMode)] readLockMode = false
  ∧ (canAcquire [(0, readLockMode)] writeLockMode = true
      ↔ [(0, readLockMode)] = ([] : LockHolders))
  ∧ LockReach [(1, readLockMode), (0, readLockMode)]
  ∧ LockSane [(1, readLockMode), (0, readLockMode)]
  ∧ (transactionEvents false
      = DBEvent.acq writeLockMode ::
          [DBEvent.checkPendingMarker, DBEvent.createPendingMarker,
            DBEvent.yieldScope, DBEvent.removePendingMarker]
          ++ [DBEvent.rel writeLockMode]) :=
  ⟨database_wide_locking.2.2.2.2.1 [(0, writeLockMode)] 0 (by decide),
   database_wide_locking.2.2.2.2.2.1 [(0, readLockMode)],
   database_wide_locking.2.2.2.2.2.2.1,
   database_wide_locking.2.2.2.2.2.2.2 _ database_wide_locking.2.2.2.2.2.2.1,
   by decide⟩

/-!
## C1: content-addressed dataset deduplication
-/

theorem forall_ne_of_lookupA_none {α β : Type} [DecidableEq α] {l : List (α × β)} {k : α}
    (h : lookupA l k = none) : ∀ p ∈ l, p.1 ≠ k := by
  induction l with
  | nil => intro p hp; simp at hp
  | cons q rest ih =>
      obtain ⟨k', v'⟩ := q
      intro p hp
      by_cases hk : k' = k
      · simp [lookupA, hk] at h
      · simp only [lookupA, hk, if_false] at h
        rcases List.mem_cons.mp hp with h1 | h2
        · rw [h1]; exact hk
        · exact ih h p h2

theorem mem_hDir_of_mem_index {a : DSArea} {h : Nat} {n : String}
    (hm : (h, n) ∈ a.index) : n ∈ hDir a h := by
  simp only [hDir, List.mem_map]
  exact ⟨(h, n), List.mem_filter.mpr ⟨hm, by simp⟩, rfl⟩

theorem mem_index_of_mem_hDir {a : DSArea} {h : Nat} {n : String}
    (hm : n ∈ hDir a h) : (h, n) ∈ a.index := by
  simp only [hDir, List.mem_map] at hm
  obtain ⟨e, he, hen⟩ := hm
  obtain ⟨hmem, hh⟩ := List.mem_filter.mp he
  obtain ⟨e1, e2⟩ := e
  simp only [beq_iff_eq] at hh
  rw [← hh, ← hen]
  exact hmem

/-- What the scan loop needs of every listed name: a datainfo pointing
at itself and a stored csv. -/
def ScanOK (a : DSArea) (names : List String) : Prop :=
  ∀ n ∈ names, ∃ d, lookupA a.dinfo n = some d ∧ d.path = n ∧
    ∃ f, lookupA a.csv n = some f

theorem scanOK_of_wf {hashDf : Nat → Nat} {a : DSArea} (hwf : DSWF hashDf a) (h : Nat) :
    ScanOK a (hDir a h) := by
  intro n hn
  obtain ⟨d, hd, hp, f, hf, _⟩ := hwf.1 (h, n) (mem_index_of_mem_hDir hn)
  exact ⟨d, hd, hp, f, hf⟩

theorem scanHDir_cons (a : DSArea) (c df : Nat) (n : String) (rest : List String) :
    scanHDir a c df (n :: rest)
      = match lookupA a.dinfo n with
        | none => .error .fileNotFound
        | some curdi =>
          if curdi.core = c then
            match lookupA a.csv curdi.path with
            | none => .error .fileNotFound
            | some f =>
                if f = df then .ok (some curdi.path) else scanHDir a c df rest
          else scanHDir a c df rest := rfl

theorem scanHDir_ok (a : DSArea) (c df : Nat) (names : List String)
    (h : ScanOK a names) : ∃ r, scanHDir a c df names = .ok r := by
  induction names with
  | nil => exact ⟨none, rfl⟩
  | cons n rest ih =>
      obtain ⟨d, hd, hp, f, hf⟩ := h n (List.mem_cons_self _ _)
      obtain ⟨r, hr⟩ := ih fun m hm => h m (List.mem_cons_of_mem _ hm)
      have hfp : lookupA a.csv d.path = some f := by rw [hp]; exact hf
      by_cases hc : d.core = c
      · by_cases hfd : f = df
        · exact ⟨some d.path, by rw [scanHDir_cons]; simp [hd, hc, hfp, hfd]⟩
        · exact ⟨r, by rw [scanHDir_cons]; simp [hd, hc, hfp, hfd, hr]⟩
      · exact ⟨r, by rw [scanHDir_cons]; simp [hd, hc, hr]⟩

theorem scanHDir_none_spec (a : DSArea) (c df : Nat) (names : List String)
    (hs : scanHDir a c df names = .ok none) :
    ∀ n ∈ names, ∀ d, lookupA a.dinfo n = some d → d.core = c →
      lookupA a.csv d.path ≠ some df := by
  induction names with
  | nil => intro n hn; simp at hn
  | cons m rest ih =>
      rw [scanHDir_cons] at hs
      intro n hn d hd hdc hcsv
      split at hs
      · simp at hs
      · rename_i curdi heq
        split at hs
        · rename_i hcc
          split at hs
          · rename_i hfm
            rcases List.mem_cons.mp hn with rfl | h2
            · rw [hd] at heq
              obtain rfl := Option.some.inj heq
              rw [hcsv] at hfm
              exact Option.noConfusion hfm
            · simp at hs
          · rename_i f hfm
            split at hs
            · simp at hs
            · rename_i hfd
              rcases List.mem_cons.mp hn with rfl | h2
              · rw [hd] at heq
                obtain rfl := Option.some.inj heq
                rw [hcsv] at hfm
                exact hfd (Option.some.inj hfm).symm
              · exact ih hs n h2 d hd hdc hcsv
        · rename_i hcc
          rcases List.mem_cons.mp hn with rfl | h2
          · rw [hd] at heq
            obtain rfl := Option.some.inj heq
            exact hcc hdc
          · exact ih hs n h2 d hd hdc hcsv

theorem scanHDir_found (a : DSArea) (c df : Nat) (names : List String)
    {n : String} (hn : n ∈ names) (d : DInfo)
    (hd : lookupA a.dinfo n = some d) (hpath : d.path = n) (hcore : d.core = c)
    (hcsv : lookupA a.csv n = some df) :
    scanHDir a c df names ≠ .ok none := by
  intro hcontra
  have := scanHDir_none_spec a c df names hcontra n hn d hd hcore
  rw [hpath] at this
  exact this hcsv

theorem scanHDir_some_spec (a : DSArea) (c df : Nat) (names : List String) (p : String)
    (hs : scanHDir a c df names = .ok (some p)) :
    ∃ n ∈ names, ∃ d, lookupA a.dinfo n = some d ∧ d.core = c ∧ d.path = p
      ∧ lookupA a.csv p = some df := by
  induction names with
  | nil => simp [scanHDir] at hs
  | cons m rest ih =>
      rw [scanHDir_cons] at hs
      split at hs
      · simp at hs
      · rename_i curdi heq
        split at hs
        · rename_i hcc
          split at hs
          · simp at hs
          · rename_i f hfm
            split at hs
            · rename_i hfd
              have hp : curdi.path = p := by simpa using hs
              refine ⟨m, List.mem_cons_self _ _, curdi, heq, hcc, hp, ?_⟩
              rw [← hp, hfm, hfd]
            · obtain ⟨n, hn, rest_spec⟩ := ih hs
              exact ⟨n, List.mem_cons_of_mem _ hn, rest_spec⟩
        · obtain ⟨n, hn, rest_spec⟩ := ih hs
          exact ⟨n, List.mem_cons_of_mem _ hn, rest_spec⟩

theorem mem_touchIndex_self (idx : List (Nat × String)) (h : Nat) (n : String) :
    (h, n) ∈ touchIndex idx h n := by
  by_cases hmem : (h, n) ∈ idx <;> simp [touchIndex, hmem]

theorem touchIndex_eq_append {idx : List (Nat × String)} {h : Nat} {n : String}
    (hnot : ∀ e ∈ idx, e.2 ≠ n) : touchIndex idx h n = idx ++ [(h, n)] := by
  have : (h, n) ∉ idx := fun hm => hnot _ hm rfl
  simp [touchIndex, this]

theorem entryContent_fresh_other (a : DSArea) (name : String) (di : DInfo)
    (df : Nat) (idx : List (Nat × String)) (m : String) (hm : m ≠ name) :
    entryContent ⟨idx, setAssoc a.csv name df, setAssoc a.dinfo name di⟩ m
      = entryContent a m := by
  simp [entryContent, lookupA_setAssoc_other _ _ _ _ hm]

/-- Reuse case of `store_model`: when an index entry with the stored
dataset's content already exists, storing again (under any model name)
returns the area unchanged — no physical copy — and reuses that
entry's path. -/
theorem storeDataset_reuse (hashDf : Nat → Nat) (a : DSArea) (n : String)
    (di : DInfo) (df : Nat) (name : String)
    (hwf : DSWF hashDf a) (hnd : NoDupContent a)
    (hidx : (hashDf df, n) ∈ a.index)
    (hdi : lookupA a.dinfo n = some ⟨di.core, n⟩)
    (hcsv : lookupA a.csv n = some df) :
    storeDataset hashDf a name di df = .ok (a, n) := by
  obtain ⟨r, hr⟩ := scanHDir_ok a di.core df _ (scanOK_of_wf hwf (hashDf df))
  cases r with
  | none =>
      exact absurd hr
        (scanHDir_found a di.core df _ (mem_hDir_of_mem_index hidx)
          ⟨di.core, n⟩ hdi rfl rfl hcsv)
  | some p =>
      obtain ⟨m, hm, d, hmd, hdc, hdp, hpc⟩ :=
        scanHDir_some_spec a di.core df _ p hr
      -- `p` is itself an index entry name: `d.path = m` by well-formedness
      obtain ⟨d', hd', hp', f', hf', _⟩ := hwf.1 _ (mem_index_of_mem_hDir hm)
      have hdd : d' = d := by
        rw [hmd] at hd'
        exact (Option.some.inj hd').symm
      have hp2 : d.path = m := by rw [← hdd]; exact hp'
      have hpm : p = m := by rw [← hdp, hp2]
      rw [hpm] at hpc
      -- the matched entry has the same content as the entry for `n`
      have hcn : entryContent a n = some (di.core, df) := by
        simp [entryContent, hdi, hcsv]
      have hcm : entryContent a m = some (di.core, df) := by
        simp [entryContent, hmd, hpc, hdc]
      have hpn : p = n := by
        have hmem : (hashDf df, p) ∈ a.index := by
          rw [hpm]; exact mem_index_of_mem_hDir hm
        have := hnd (hashDf df, p) hmem (hashDf df, n) hidx ?_
        · exact this
        · show entryContent a p = entryContent a n
          rw [hpm, hcm, hcn]
      rw [storeDataset, hr, hpn]

/-- Fresh-write case of `store_model`: when the scan finds no match and
the model name is new, the dataset is written once under that name; the
area stays well-formed and free of duplicate content. -/
theorem storeDataset_fresh (hashDf : Nat → Nat) (a : DSArea) (name : String)
    (di : DInfo) (df : Nat)
    (hwf : DSWF hashDf a) (hnd : NoDupContent a)
    (hfreshc : lookupA a.csv name = none)
    (hfreshd : lookupA a.dinfo name = none)
    (hnomatch : scanHDir a di.core df (hDir a (hashDf df)) = .ok none) :
    ∃ a₁, storeDataset hashDf a name di df = .ok (a₁, name)
      ∧ DSWF hashDf a₁ ∧ NoDupContent a₁
      ∧ (hashDf df, name) ∈ a₁.index
      ∧ lookupA a₁.dinfo name = some ⟨di.core, name⟩
      ∧ lookupA a₁.csv name = some df := by
  have hIdxFresh : ∀ e ∈ a.index, e.2 ≠ name := by
    intro e he heq
    obtain ⟨d, hd, hp, f, hf, _⟩ := hwf.1 e he
    rw [heq] at hf
    rw [hf] at hfreshc
    exact Option.noConfusion hfreshc
  refine ⟨⟨touchIndex a.index (hashDf df) name, setAssoc a.csv name df,
      setAssoc a.dinfo name ⟨di.core, name⟩⟩,
    by rw [storeDataset, hnomatch], ⟨?_, ?_, ?_⟩, ?_,
    mem_touchIndex_self _ _ _, lookupA_setAssoc_self _ _ _,
    lookupA_setAssoc_self _ _ _⟩
  · -- every index entry of the new area is backed by datainfo and csv
    intro e he
    rw [touchIndex_eq_append hIdxFresh] at he
    rcases List.mem_append.mp he with hold | hnew
    · obtain ⟨d, hd, hp, f, hf, hh⟩ := hwf.1 e hold
      have hne : e.2 ≠ name := hIdxFresh e hold
      refine ⟨d, ?_, hp, f, ?_, hh⟩
      · rw [lookupA_setAssoc_other _ _ _ _ hne]; exact hd
      · rw [lookupA_setAssoc_other _ _ _ _ hne]; exact hf
    · have : e = (hashDf df, name) := by simpa using hnew
      subst this
      exact ⟨⟨di.core, name⟩, lookupA_setAssoc_self _ _ _, rfl, df,
        lookupA_setAssoc_self _ _ _, rfl⟩
  · -- every csv of the new area is indexed
    intro cc hcc
    rw [setAssoc_of_lookupA_none _ _ _ hfreshc] at hcc
    rcases List.mem_append.mp hcc with hold | hnew
    · have := hwf.2.1 cc hold
      rw [touchIndex_eq_append hIdxFresh]
      exact List.mem_append_left _ this
    · have : cc = (name, df) := by simpa using hnew
      subst this
      exact mem_touchIndex_self _ _ _
  · -- csv file names stay unique
    rw [setAssoc_of_lookupA_none _ _ _ hfreshc, List.map_append]
    refine List.Nodup.append hwf.2.2 (by simp) ?_
    intro x hx hx'
    simp only [List.map_cons, List.map_nil, List.mem_singleton] at hx'
    subst hx'
    obtain ⟨q, hq, hq'⟩ := List.mem_map.mp hx
    exact forall_ne_of_lookupA_none hfreshc q hq hq'
  · -- no two live entries share content
    intro e₁ he₁ e₂ he₂ hcontent
    rw [touchIndex_eq_append hIdxFresh] at he₁ he₂
    have hnew_content : entryContent ⟨touchIndex a.index (hashDf df) name,
        setAssoc a.csv name df, setAssoc a.dinfo name ⟨di.core, name⟩⟩ name
        = some (di.core, df) := by
      rw [entryContent, lookupA_setAssoc_self, lookupA_setAssoc_self]
    have old_absurd : ∀ e ∈ a.index,
        entryContent ⟨touchIndex a.index (hashDf df) name,
          setAssoc a.csv name df, setAssoc a.dinfo name ⟨di.core, name⟩⟩ e.2
          = some (di.core, df) → False := by
      intro e he hc
      rw [entryContent_fresh_other _ _ _ _ _ _ (hIdxFresh e he)] at hc
      obtain ⟨d, hd, hp, f, hf, hh⟩ := hwf.1 e he
      rw [entryContent, hd, hf] at hc
      obtain ⟨hdc, hfd⟩ : d.core = di.core ∧ f = df := by
        constructor <;> [exact (Prod.mk.injEq _ _ _ _ ▸ Option.some.inj hc).1;
          exact (Prod.mk.injEq _ _ _ _ ▸ Option.some.inj hc).2]
      have hein : e.2 ∈ hDir a (hashDf df) := by
        apply mem_hDir_of_mem_index
        have : e.1 = hashDf df := by rw [← hh, hfd]
        rw [← this]
        exact he
      have := scanHDir_none_spec a di.core df _ hnomatch e.2 hein d hd hdc
      rw [hp] at this
      rw [hfd] at hf
      exact this hf
    rcases List.mem_append.mp he₁ with h₁o | h₁n
    · rcases List.mem_append.mp he₂ with h₂o | h₂n
      · -- both old entries keep their old content
        rw [entryContent_fresh_other _ _ _ _ _ _ (hIdxFresh _ h₁o),
          entryContent_fresh_other _ _ _ _ _ _ (hIdxFresh _ h₂o)] at hcontent
        exact hnd e₁ h₁o e₂ h₂o hcontent
      · have he₂n : e₂ = (hashDf df, name) := by simpa using h₂n
        subst he₂n
        exact absurd (hcontent.trans hnew_content) (fun hc => old_absurd e₁ h₁o hc)
    · have he₁n : e₁ = (hashDf df, name) := by simpa using h₁n
      subst he₁n
      rcases List.mem_append.mp he₂ with h₂o | h₂n
      · exact absurd (hcontent.symm.trans hnew_content)
          (fun hc => old_absurd e₂ h₂o hc)
      · have he₂n : e₂ = (hashDf df, name) := by simpa using h₂n
        rw [he₂n]

/-- C1: storing a dataset twice through `store_model` — even from two
different models — yields exactly one physical dataset entry: the
second store of content-equal data returns the area unchanged (no
physical copy) and reuses the first entry's path, and the content index
never contains two live entries whose underlying content is equal. -/
theorem dataset_store_dedup (hashDf : Nat → Nat) (a : DSArea)
    (name₁ name₂ : String) (di₁ di₂ : DInfo) (df : Nat)
    (hwf : DSWF hashDf a) (hnd : NoDupContent a)
    (hfreshc : lookupA a.csv name₁ = none)
    (hfreshd : lookupA a.dinfo name₁ = none)
    (hcore : di₂.core = di₁.core) :
    ∃ a₁ p₁,
      storeDataset hashDf a name₁ di₁ df = .ok (a₁, p₁)
    ∧ storeDataset hashDf a₁ name₂ di₂ df = .ok (a₁, p₁)
    ∧ NoDupContent a₁
    ∧ entryContent a₁ p₁ = some (di₁.core, df)
    ∧ ∀ e ∈ a₁.index, entryContent a₁ e.2 = some (di₁.core, df) → e.2 = p₁ := by
  obtain ⟨r, hr⟩ := scanHDir_ok a di₁.core df _ (scanOK_of_wf hwf (hashDf df))
  cases r with
  | some p =>
      -- the dataset is already stored: both stores reuse entry `p`
      obtain ⟨m, hm, d, hmd, hdc, hdp, hpc⟩ :=
        scanHDir_some_spec a di₁.core df _ p hr
      obtain ⟨d', hd', hp', f', hf', hh'⟩ := hwf.1 _ (mem_index_of_mem_hDir hm)
      have hdd : d' = d := by
        rw [hmd] at hd'
        exact (Option.some.inj hd').symm
      have hp2 : d.path = m := by rw [← hdd]; exact hp'
      have hpm : p = m := by rw [← hdp, hp2]
      subst hpm
      have hidx : (hashDf df, p) ∈ a.index := mem_index_of_mem_hDir hm
      have hdi : lookupA a.dinfo p = some ⟨di₁.core, p⟩ := by
        rw [hmd, ← hdc, ← hp2]
      have hcp : entryContent a p = some (di₁.core, df) := by
        simp [entryContent, hdi, hpc]
      refine ⟨a, p, by rw [storeDataset, hr], ?_, hnd, hcp, ?_⟩
      · exact storeDataset_reuse hashDf a p di₂ df name₂ hwf hnd hidx
          (by rw [hcore]; exact hdi) hpc
      · intro e he hc
        exact hnd e he (hashDf df, p) hidx (by rw [hc, hcp])
  | none =>
      -- fresh write, then the second store finds and reuses it
      obtain ⟨a₁, hstore, hwf₁, hnd₁, hidx₁, hdi₁, hcsv₁⟩ :=
        storeDataset_fresh hashDf a name₁ di₁ df hwf hnd hfreshc hfreshd hr
      have hc₁ : entryContent a₁ name₁ = some (di₁.core, df) := by
        simp [entryContent, hdi₁, hcsv₁]
      refine ⟨a₁, name₁, hstore, ?_, hnd₁, hc₁, ?_⟩
      · exact storeDataset_reuse hashDf a₁ name₁ di₂ df name₂ hwf₁ hnd₁ hidx₁
          (by rw [hcore]; exact hdi₁) hcsv₁
      · intro e he hc
        exact hnd₁ e he (hashDf df, name₁) hidx₁ (by rw [hc, hc₁])

/-- Witness for C1: two models `run1`, `run2` with equal dataset content
share one stored entry. -/
theorem dataset_store_dedup_witness :
    storeDataset (fun f => f) ⟨[], [], []⟩ "run1" ⟨0, ""⟩ 7
      = .ok (⟨[(7, "run1")], [("run1", 7)], [("run1", ⟨0, "run1"⟩)]⟩, "run1")
  ∧ storeDataset (fun f => f)
        ⟨[(7, "run1")], [("run1", 7)], [("run1", ⟨0, "run1"⟩)]⟩ "run2" ⟨0, "x"⟩ 7
      = .ok (⟨[(7, "run1")], [("run1", 7)], [("run1", ⟨0, "run1"⟩)]⟩, "run1")
  ∧ NoDupContent ⟨[(7, "run1")], [("run1", 7)], [("run1", ⟨0, "run1"⟩)]⟩
  ∧ entryContent ⟨[(7, "run1")], [("run1", 7)], [("run1", ⟨0, "run1"⟩)]⟩ "run1"
      = some (0, 7) := by
  have hwf0 : DSWF (fun f => f) ⟨[], [], []⟩ := by
    refine ⟨?_, ?_, ?_⟩ <;> simp
  have hnd0 : NoDupContent ⟨[], [], []⟩ := by
    intro e₁ he₁
    simp at he₁
  obtain ⟨a₁, p₁, h1, h2, h3, h4, h5⟩ := dataset_store_dedup (fun f => f)
    ⟨[], [], []⟩ "run1" "run2" ⟨0, ""⟩ ⟨0, "x"⟩ 7 hwf0 hnd0 rfl rfl rfl
  have h1c : storeDataset (fun f => f) ⟨[], [], []⟩ "run1" ⟨0, ""⟩ 7
      = .ok (⟨[(7, "run1")], [("run1", 7)], [("run1", ⟨0, "run1"⟩)]⟩, "run1") := by
    decide
  obtain ⟨ha, hp⟩ := Prod.mk.inj (Except.ok.inj (h1c.symm.trans h1))
  refine ⟨h1c, ?_, ?_, ?_⟩
  · rw [ha, hp]; exact h2
  · rw [ha]; exact h3
  · rw [ha, hp]; exact h4

end Pharmpy
